import Mathlib

/-!
Verification of the dipole detection and matching pipeline of
src/wys_ars/rays/dipole_finder.py (class Dipoles).

Machine floats are modelled as exact rationals; values that the code
obtains through a square root (standard deviations, Euclidean distances)
live in the reals.  Fallible operations (numpy arange with zero step,
sklearn fitting or querying on empty data, pandas column assignment with
mismatched length, the assert in Dipoles.from_sky) are modelled with
Option, none standing for the raised error.
-/

/-- Model of numpy.min over a flattened array.  The empty case, an error
in numpy, is given the junk value 0; theorems only use non-empty lists. -/
def np_min (xs : List ℚ) : ℚ :=
  match xs with
  | [] => 0
  | h :: t => t.foldl min h

/-- Model of numpy.max over a flattened array, junk value 0 on []. -/
def np_max (xs : List ℚ) : ℚ :=
  match xs with
  | [] => 0
  | h :: t => t.foldl max h

/-- Model of numpy.arange(start, stop, step): the values start + k*step for
0 <= k < ceil((stop - start)/step).  A zero step raises ZeroDivisionError
in numpy, modelled as none. -/
def numpy_arange (start stop step : ℚ) : Option (List ℚ) :=
  if step = 0 then none
  else some ((List.range (⌈(stop - start) / step⌉).toNat).map
    (fun k : ℕ => start + (k : ℚ) * step))

/-- Embedding of Dipoles._get_convergence_thresholds: numpy arange from
np.min(sky_array) to np.max(sky_array)*1.1 with step
(np.max(sky_array)*1.1 - np.min(sky_array)) / nbins. -/
def get_convergence_thresholds (sky_array : List ℚ) (nbins : ℕ) : Option (List ℚ) :=
  numpy_arange (np_min sky_array) (np_max sky_array * (11/10))
    ((np_max sky_array * (11/10) - np_min sky_array) / nbins)

/-- Spec-side comparison value for the threshold builder: the arithmetic
sequence of nbins values starting at np_min with the step used by the
code. -/
def arithmetic_thresholds (sky_array : List ℚ) (nbins : ℕ) : List ℚ :=
  (List.range nbins).map
    (fun k : ℕ =>
      np_min sky_array + (k : ℚ) * ((np_max sky_array * (11/10) - np_min sky_array) / nbins))

/-- Embedding of Dipoles._remove_peaks_crossing_edge: with
pixlen = opening_angle / npix and bufferlen = ceil(kernel_width/(60*pixlen)),
keep exactly the rows whose pixel coordinates x = pos_x*npix/opening_angle
and y = pos_y*npix/opening_angle satisfy
bufferlen <= x <= npix - 1 - bufferlen and likewise for y.  The sigma and
position arrays are masked by the same boolean index, modelled by
filtering their zip. -/
def remove_peaks_crossing_edge (npix : ℕ) (opening_angle kernel_width : ℚ)
    (sigma : List ℚ) (pos : List (ℚ × ℚ)) : List ℚ × List (ℚ × ℚ) :=
  let pixlen : ℚ := opening_angle / npix
  let bufferlen : ℤ := ⌈kernel_width / (60 * pixlen)⌉
  let keep : ℚ × ℚ → Bool := fun p =>
    decide ((p.1 * npix / opening_angle ≤ (npix : ℚ) - 1 - bufferlen
              ∧ (bufferlen : ℚ) ≤ p.1 * npix / opening_angle)
          ∧ (p.2 * npix / opening_angle ≤ (npix : ℚ) - 1 - bufferlen
              ∧ (bufferlen : ℚ) ≤ p.2 * npix / opening_angle))
  let rows := (sigma.zip pos).filter (fun sp => keep sp.2)
  (rows.map Prod.fst, rows.map Prod.snd)

/-- Squared Euclidean distance between two planar points. -/
def sqdist (a b : ℚ × ℚ) : ℚ := (a.1 - b.1) ^ 2 + (a.2 - b.2) ^ 2

/-- Modelled from the spec: the nearest-neighbour query of the external
sklearn NearestNeighbors structure (n_neighbors = 1).  Returns the index of
a training point nearest to the query q together with the squared distance,
the earliest index winning ties; none on an empty training set, where
sklearn raises. -/
def nearest (pts : List (ℚ × ℚ)) (q : ℚ × ℚ) : Option (ℕ × ℚ) :=
  match pts with
  | [] => none
  | p :: rest =>
    match nearest rest q with
    | none => some (0, sqdist q p)
    | some (i, d) => if sqdist q p ≤ d then some (0, sqdist q p) else some (i + 1, d)

/-- Embedding of Dipoles.find_nearest, squared-distance core.  The
neighbour structure is fitted on the peak positions (self.data) and
queried with the catalog rows (df2), giving one index and one distance per
catalog row; the resulting arrays are assigned as columns of the peak
table, which pandas only accepts when the lengths agree.  Empty peaks or
an empty catalog make the library raise, modelled as none. -/
def find_nearest_sq (peaks df2 : List (ℚ × ℚ)) : Option (List ℕ × List ℚ) :=
  match peaks with
  | [] => none
  | _ :: _ =>
    if df2.isEmpty then none
    else
      let results := df2.map (fun q => (nearest peaks q).getD (0, 0))
      if df2.length = peaks.length then some (results.map Prod.fst, results.map Prod.snd)
      else none

/-- Embedding of Dipoles.find_nearest: the distances reported by sklearn
are Euclidean, the square roots of the squared distances of the core. -/
noncomputable def find_nearest (peaks df2 : List (ℚ × ℚ)) : Option (List ℕ × List ℝ) :=
  (find_nearest_sq peaks df2).map (fun r => (r.1, r.2.map (fun d : ℚ => Real.sqrt (d : ℝ))))

/-- Comparison definition following the claim wording for the catalog
matcher: for each peak the index of the nearest catalog record, failing
on an empty catalog. -/
def match_nearest_spec (peaks catalog : List (ℚ × ℚ)) : Option (List ℕ) :=
  if catalog.isEmpty then none
  else some (peaks.map (fun p => ((nearest catalog p).getD (0, 0)).1))

/-- Model of numpy.mean of a flattened array (junk value 0 on []). -/
def numpy_mean (xs : List ℚ) : ℚ := xs.sum / xs.length

/-- Model of numpy.var with the default ddof = 0: the mean of the squared
deviations from the mean. -/
def numpy_var (xs : List ℚ) : ℚ :=
  (xs.map (fun x => (x - numpy_mean xs) ^ 2)).sum / xs.length

/-- Model of numpy.std with the default ddof = 0. -/
noncomputable def numpy_std (xs : List ℚ) : ℝ := Real.sqrt ((numpy_var xs : ℚ) : ℝ)

/-- Embedding of Dipoles._signal_to_noise_ratio: each peak value divided by
np.std of the map values.  The optional sigma argument of the source is
accepted and, like in the source, never read. -/
noncomputable def signal_to_noise (peak_values map_values : List ℚ) (sigma : Option ℝ) :
    List ℝ :=
  peak_values.map (fun p : ℚ => (p : ℝ) / numpy_std map_values)

/-- A sky-map variant: a 2D array of scalars. -/
abbrev Grid := List (List ℚ)

/-- Elementwise absolute value, modelling np.abs on a 2D array. -/
def np_abs (g : Grid) : Grid := g.map (fun row => row.map (fun v => |v|))

/-- The kernel kinds named by Dipoles._filter. -/
inductive FilterKind
  | gaussian_high_pass
  | gaussian_third_derivative
  | gaussian_low_pass
deriving DecidableEq, Repr

/-- One entry of a filter description: kind, smoothing scale theta_i in
arcmin, and the direction carried only by the third-derivative kernel. -/
structure FilterCfg where
  kind : FilterKind
  theta_i : ℚ
  direction : Option ℤ
deriving DecidableEq, Repr

/-- Modelled from the spec: SkyMap.convolution is not under src/; per the
spec it applies each named 2D kernel of the description in sequence to the
array and returns the resulting array.  The kernels themselves are
external numerical collaborators, taken as a parameter. -/
def convolution (apply_kernel : FilterCfg → Grid → Grid)
    (filter_dsc : List FilterCfg) (arr : Grid) : Grid :=
  filter_dsc.foldl (fun a cfg => apply_kernel cfg a) arr

/-- Embedding of Dipoles._filter: one convolution call with the high-pass
and third-derivative kernels on the original variant, then a convolution
call with the low-pass kernel on the elementwise absolute value of that
result. -/
def dipole_filter (apply_kernel : FilterCfg → Grid → Grid)
    (kernel_width : ℚ) (direction : ℤ) (orig : Grid) : Grid :=
  let m := convolution apply_kernel
    [⟨FilterKind.gaussian_high_pass, kernel_width, none⟩,
     ⟨FilterKind.gaussian_third_derivative, kernel_width, some direction⟩] orig
  convolution apply_kernel
    [⟨FilterKind.gaussian_low_pass, kernel_width, none⟩] (np_abs m)

/-- Model of numpy.rint: round to nearest integer, halves to even. -/
def np_rint (x : ℚ) : ℤ :=
  if x - ⌊x⌋ = 1/2 then (if 2 ∣ ⌊x⌋ then ⌊x⌋ else ⌊x⌋ + 1) else round x

/-- The peak table assembled by Dipoles.from_sky. -/
structure PeakDF where
  deltaT : List ℚ
  x_deg : List ℚ
  y_deg : List ℚ
  snr : List ℝ
  x_pix : List ℤ
  y_pix : List ℤ

/-- Embedding of the part of Dipoles.from_sky that follows peak location:
edge rejection, the assert that some peak remains (modelled as none), the
signal-to-noise column from the map values, and the rounded pixel
columns.  deltaT and pos_deg stand for the output of the external
lenstools locatePeaks call. -/
noncomputable def from_sky_peaks (npix : ℕ) (opening_angle kernel_width : ℚ)
    (map_values : List ℚ) (deltaT : List ℚ) (pos_deg : List (ℚ × ℚ)) : Option PeakDF :=
  let r := remove_peaks_crossing_edge npix opening_angle kernel_width deltaT pos_deg
  if r.1.length = 0 then none
  else some
    { deltaT := r.1
      x_deg := r.2.map Prod.fst
      y_deg := r.2.map Prod.snd
      snr := signal_to_noise r.1 map_values none
      x_pix := (r.2.map Prod.fst).map (fun x => np_rint (x * npix / opening_angle))
      y_pix := (r.2.map Prod.snd).map (fun y => np_rint (y * npix / opening_angle)) }

/-- C2: a peak row is retained by the edge rejector if and only if, with
buffer_px = ceil(kernel_width / (60 * (opening_angle / npix))) and the
positions converted to pixels as px = pos * npix / opening_angle, both
pixel coordinates satisfy buffer_px <= px <= npix - 1 - buffer_px; all
other rows are discarded. -/
theorem edge_rejection_iff (npix : ℕ) (opening_angle kernel_width : ℚ)
    (sigma : List ℚ) (pos : List (ℚ × ℚ)) (s : ℚ) (p : ℚ × ℚ) :
    (s, p) ∈ ((remove_peaks_crossing_edge npix opening_angle kernel_width sigma pos).1.zip
              (remove_peaks_crossing_edge npix opening_angle kernel_width sigma pos).2)
    ↔ (s, p) ∈ sigma.zip pos
      ∧ ((⌈kernel_width / (60 * (opening_angle / npix))⌉ : ℚ) ≤ p.1 * npix / opening_angle
          ∧ p.1 * npix / opening_angle
              ≤ (npix : ℚ) - 1 - (⌈kernel_width / (60 * (opening_angle / npix))⌉ : ℚ))
      ∧ ((⌈kernel_width / (60 * (opening_angle / npix))⌉ : ℚ) ≤ p.2 * npix / opening_angle
          ∧ p.2 * npix / opening_angle
              ≤ (npix : ℚ) - 1 - (⌈kernel_width / (60 * (opening_angle / npix))⌉ : ℚ)) := by
  simp only [remove_peaks_crossing_edge, List.zip_map', Prod.mk.eta, List.map_id,
    List.map_id', List.mem_filter, decide_eq_true_eq]
  tauto

/-- C4: the dipole filter stage is exactly the composition low-pass after
elementwise absolute value after third-derivative (with the given
direction) after high-pass, all kernels at the same scale. -/
theorem dipole_filter_composition (apply_kernel : FilterCfg → Grid → Grid)
    (kernel_width : ℚ) (direction : ℤ) (orig : Grid) :
    dipole_filter apply_kernel kernel_width direction orig
      = apply_kernel ⟨FilterKind.gaussian_low_pass, kernel_width, none⟩
          (np_abs (apply_kernel ⟨FilterKind.gaussian_third_derivative, kernel_width, some direction⟩
            (apply_kernel ⟨FilterKind.gaussian_high_pass, kernel_width, none⟩ orig))) := rfl

/-- C5: when peak location yields an empty amplitude sequence the pipeline
produces no peak table at all (the assert fires, modelled as none): there
is no empty successful result and no partial result. -/
theorem from_sky_no_peaks (npix : ℕ) (opening_angle kernel_width : ℚ)
    (map_values : List ℚ) (pos_deg : List (ℚ × ℚ)) :
    from_sky_peaks npix opening_angle kernel_width map_values [] pos_deg = none := rfl

/-- C6 counterexample: with npix = 100, opening_angle = 20 and
kernel_width = 5, a peak at pixel position (2, 50), fed in degrees, is
retained by the edge rejector, contrary to the claim that it is
rejected. -/
theorem edge_concrete_counterexample :
    remove_peaks_crossing_edge 100 20 5 [1] [((2 : ℚ) * (20/100), (50 : ℚ) * (20/100))]
      = ([1], [((2 : ℚ) * (20/100), (50 : ℚ) * (20/100))]) := by
  have hb : (⌈(5 : ℚ) / (60 * ((20 : ℚ) / ((100 : ℕ) : ℚ)))⌉ : ℤ) = 1 := by
    rw [Int.ceil_eq_iff]
    norm_num
  simp only [remove_peaks_crossing_edge]
  rw [hb]
  norm_num [List.filter]

/-- C6 amended: with npix = 100, opening_angle = 20, kernel_width = 5 the
buffer is ceil(5/12) = 1 pixel; peaks at pixel positions (2, 50) and
(50, 50) are retained, a peak at exactly buffer_px = 1 from the edge is
kept, and one at buffer_px - 1 = 0 is rejected. -/
theorem edge_concrete_instance :
    (⌈(5 : ℚ) / (60 * ((20 : ℚ) / 100))⌉ = 1)
    ∧ remove_peaks_crossing_edge 100 20 5 [1, 2, 3, 4]
        [((2 : ℚ) * (20/100), 10), ((50 : ℚ) * (20/100), 10),
         ((1 : ℚ) * (20/100), 10), (0, 10)]
      = ([1, 2, 3],
         [((2 : ℚ) * (20/100), 10), ((50 : ℚ) * (20/100), 10),
          ((1 : ℚ) * (20/100), 10)]) := by
  have hb : (⌈(5 : ℚ) / (60 * ((20 : ℚ) / ((100 : ℕ) : ℚ)))⌉ : ℤ) = 1 := by
    rw [Int.ceil_eq_iff]
    norm_num
  constructor
  · rw [Int.ceil_eq_iff]
    norm_num
  · simp only [remove_peaks_crossing_edge]
    rw [hb]
    norm_num [List.filter]

/-- C8: whenever 1.1 times the maximum of the field equals its minimum the
threshold builder fails (the arange step is zero, an error), returning no
threshold sequence. -/
theorem thresholds_degenerate (sky_array : List ℚ) (nbins : ℕ)
    (h : np_max sky_array * (11/10) = np_min sky_array) :
    get_convergence_thresholds sky_array nbins = none := by
  unfold get_convergence_thresholds numpy_arange
  rw [h, sub_self, zero_div]
  simp

/-- Witness for thresholds_degenerate at the concrete field [-11, -10]. -/
theorem thresholds_degenerate_witness :
    np_max [(-11 : ℚ), -10] * (11/10) = np_min [(-11 : ℚ), -10]
    ∧ get_convergence_thresholds [(-11 : ℚ), -10] 3 = none := by
  have h : np_max [(-11 : ℚ), -10] * (11/10) = np_min [(-11 : ℚ), -10] := by
    simp only [np_max, np_min, List.foldl_cons, List.foldl_nil]
    rw [max_eq_right (by norm_num : (-11 : ℚ) ≤ -10),
      min_eq_left (by norm_num : (-11 : ℚ) ≤ -10)]
    norm_num
  exact ⟨h, thresholds_degenerate [(-11 : ℚ), -10] 3 h⟩

/-- C10: the optional sigma argument of the significance scorer has no
effect: the result with any supplied sigma equals the result with sigma
omitted, namely each amplitude divided by the population standard
deviation (ddof = 0) of the reference field. -/
theorem signal_to_noise_sigma_unused (peak_values map_values : List ℚ) (s : ℝ) :
    signal_to_noise peak_values map_values (some s)
        = signal_to_noise peak_values map_values none
    ∧ signal_to_noise peak_values map_values (some s)
        = peak_values.map (fun p : ℚ => (p : ℝ) /
            Real.sqrt (((map_values.map
              (fun x => (x - map_values.sum / map_values.length) ^ 2)).sum
                / map_values.length : ℚ) : ℝ)) :=
  ⟨rfl, rfl⟩

/-- Helper: numpy arange with a nonzero step returns its value list. -/
theorem numpy_arange_pos (start stop step : ℚ) (h : ¬ step = 0) :
    numpy_arange start stop step
      = some ((List.range (⌈(stop - start) / step⌉).toNat).map
          (fun k : ℕ => start + (k : ℚ) * step)) := by
  simp [numpy_arange, h]

/-- C3: the threshold builder returns the arithmetic sequence of exactly
nbins values (not nbins + 1) starting at the field minimum with the step
(1.1 * max - min) / nbins: the sequence is strictly increasing, its first
element equals the field minimum, and it stays strictly below 1.1 * max,
so the last boundary can fall below the field maximum.  The hypothesis
min < 1.1 * max makes the arange step positive. -/
theorem thresholds_arithmetic (sky_array : List ℚ) (nbins : ℕ)
    (hne : sky_array ≠ []) (hn : 1 ≤ nbins)
    (hlt : np_min sky_array < np_max sky_array * (11/10)) :
    get_convergence_thresholds sky_array nbins = some (arithmetic_thresholds sky_array nbins)
    ∧ (arithmetic_thresholds sky_array nbins).length = nbins
    ∧ List.Pairwise (· < ·) (arithmetic_thresholds sky_array nbins)
    ∧ (arithmetic_thresholds sky_array nbins).head? = some (np_min sky_array) := by
  set lo := np_min sky_array with hlo
  set hi := np_max sky_array * (11/10) with hhi
  have hD : (0 : ℚ) < hi - lo := sub_pos.mpr hlt
  have hnpos : (0 : ℚ) < (nbins : ℚ) := by
    have h : 0 < nbins := by omega
    exact_mod_cast h
  have hstep : (0 : ℚ) < (hi - lo) / nbins := div_pos hD hnpos
  have hcount : ((hi - lo) / ((hi - lo) / nbins)) = (nbins : ℚ) := by
    rw [div_div_eq_mul_div, mul_comm, mul_div_assoc, div_self (ne_of_gt hD), mul_one]
  refine ⟨?_, ?_, ?_, ?_⟩
  · unfold get_convergence_thresholds numpy_arange arithmetic_thresholds
    rw [if_neg (ne_of_gt hstep)]
    rw [hcount, Int.ceil_natCast, Int.toNat_natCast]
  · simp [arithmetic_thresholds]
  · unfold arithmetic_thresholds
    rw [List.pairwise_map]
    refine (List.pairwise_lt_range nbins).imp ?_
    intro a b hab
    have hq : (a : ℚ) < (b : ℚ) := by exact_mod_cast hab
    exact add_lt_add_left (mul_lt_mul_of_pos_right hq hstep) lo
  · obtain ⟨m, rfl⟩ : ∃ m, nbins = m + 1 := ⟨nbins - 1, by omega⟩
    unfold arithmetic_thresholds
    rw [List.range_succ_eq_map]
    simp

/-- Witness for thresholds_arithmetic on the field [0, 10] with nbins = 2. -/
theorem thresholds_arithmetic_witness :
    np_min [(0 : ℚ), 10] < np_max [(0 : ℚ), 10] * (11/10)
    ∧ (get_convergence_thresholds [(0 : ℚ), 10] 2 = some (arithmetic_thresholds [(0 : ℚ), 10] 2)
        ∧ (arithmetic_thresholds [(0 : ℚ), 10] 2).length = 2
        ∧ List.Pairwise (· < ·) (arithmetic_thresholds [(0 : ℚ), 10] 2)
        ∧ (arithmetic_thresholds [(0 : ℚ), 10] 2).head? = some (np_min [(0 : ℚ), 10])) := by
  have h : np_min [(0 : ℚ), 10] < np_max [(0 : ℚ), 10] * (11/10) := by
    simp only [np_min, np_max, List.foldl_cons, List.foldl_nil]
    rw [min_eq_left (by norm_num : (0 : ℚ) ≤ 10), max_eq_right (by norm_num : (0 : ℚ) ≤ 10)]
    norm_num
  exact ⟨h, thresholds_arithmetic [(0 : ℚ), 10] 2 (by simp) (by norm_num) h⟩

/-- C3 counterexample: on the field [0, 10] with nbins = 2 the threshold
builder returns the two boundaries [0, 11/2]: not nbins + 1 = 3 values,
and the last boundary 11/2 is smaller than the field maximum 10. -/
theorem thresholds_counterexample :
    get_convergence_thresholds [(0 : ℚ), 10] 2 = some [0, 11/2]
    ∧ ([(0 : ℚ), 11/2]).length ≠ 2 + 1
    ∧ ¬ ((10 : ℚ) ≤ 11/2) := by
  refine ⟨?_, by norm_num, by norm_num⟩
  have h1 : np_min [(0 : ℚ), 10] = 0 := by
    simp only [np_min, List.foldl_cons, List.foldl_nil]
    exact min_eq_left (by norm_num)
  have h2 : np_max [(0 : ℚ), 10] = 10 := by
    simp only [np_max, List.foldl_cons, List.foldl_nil]
    exact max_eq_right (by norm_num)
  unfold get_convergence_thresholds
  rw [h1, h2]
  push_cast
  norm_num
  rw [numpy_arange_pos _ _ _ (by norm_num)]
  have hc : ⌈((11 : ℚ) - 0) / (11/2)⌉ = 2 := by
    rw [Int.ceil_eq_iff]
    norm_num
  rw [hc]
  simp [List.range_succ]

/-- Helper: the sum of a list scaled elementwise by k is k times the sum. -/
theorem numpy_mean_scale (k : ℚ) (xs : List ℚ) :
    numpy_mean (xs.map (fun x => k * x)) = k * numpy_mean xs := by
  unfold numpy_mean
  rw [List.length_map]
  have hs : (xs.map (fun x => k * x)).sum = k * xs.sum := by
    induction xs with
    | nil => simp
    | cons a t ih => simp [ih, mul_add]
  rw [hs, mul_div_assoc]

/-- Helper: the ddof = 0 variance scales with the square of the factor. -/
theorem numpy_var_scale (k : ℚ) (xs : List ℚ) :
    numpy_var (xs.map (fun x => k * x)) = k ^ 2 * numpy_var xs := by
  unfold numpy_var
  rw [numpy_mean_scale, List.length_map, List.map_map]
  have h1 : ((fun x => (x - k * numpy_mean xs) ^ 2) ∘ fun x => k * x)
      = fun x => k ^ 2 * (x - numpy_mean xs) ^ 2 := by
    funext x
    simp only [Function.comp_apply]
    ring
  rw [h1]
  have h2 : ∀ (u : ℚ) (l : List ℚ), (l.map (fun x => k ^ 2 * (x - u) ^ 2)).sum
      = k ^ 2 * (l.map (fun x => (x - u) ^ 2)).sum := by
    intro u l
    induction l with
    | nil => simp
    | cons a t ih =>
      simp only [List.map_cons, List.sum_cons, ih]
      ring
  rw [h2, mul_div_assoc]

/-- Helper: the ddof = 0 standard deviation scales with a nonnegative
factor. -/
theorem numpy_std_scale (k : ℚ) (hk : 0 ≤ k) (xs : List ℚ) :
    numpy_std (xs.map (fun x => k * x)) = (k : ℝ) * numpy_std xs := by
  unfold numpy_std
  rw [numpy_var_scale]
  push_cast
  rw [Real.sqrt_mul (by positivity) _]
  congr 1
  exact Real.sqrt_sq (by exact_mod_cast hk)

/-- C7 amended: scaling the amplitudes and the reference field by the same
positive constant k leaves the signal-to-noise values unchanged, and the
output has the same length as the amplitude input.  For negative k the
invariance fails, see the counterexample. -/
theorem snr_scale_invariance (peak_values map_values : List ℚ) (k : ℚ) (hk : 0 < k) :
    signal_to_noise (peak_values.map (fun a => k * a)) (map_values.map (fun x => k * x)) none
      = signal_to_noise peak_values map_values none
    ∧ (signal_to_noise (peak_values.map (fun a => k * a))
        (map_values.map (fun x => k * x)) none).length = peak_values.length := by
  constructor
  · unfold signal_to_noise
    rw [numpy_std_scale k (le_of_lt hk), List.map_map]
    apply List.map_congr_left ?h
    intro a _
    simp only [Function.comp_apply]
    push_cast
    rw [mul_div_mul_left _ _ (by exact_mod_cast (ne_of_gt hk) : ((k : ℝ)) ≠ 0)]
  · simp [signal_to_noise]

/-- Witness for snr_scale_invariance at k = 2, amplitudes [1], field [0, 1]. -/
theorem snr_scale_invariance_witness :
    (0 : ℚ) < 2
    ∧ (signal_to_noise ([(1 : ℚ)].map (fun a => 2 * a)) ([(0 : ℚ), 1].map (fun x => 2 * x)) none
         = signal_to_noise [(1 : ℚ)] [(0 : ℚ), 1] none
       ∧ (signal_to_noise ([(1 : ℚ)].map (fun a => 2 * a))
           ([(0 : ℚ), 1].map (fun x => 2 * x)) none).length = [(1 : ℚ)].length) :=
  ⟨by norm_num, snr_scale_invariance [(1 : ℚ)] [(0 : ℚ), 1] 2 (by norm_num)⟩

/-- C7 counterexample: with the nonzero constant k = -1, amplitudes [1] and
reference field [0, 1], the scaled inputs give SNR [-2] while the unscaled
inputs give [2]: the claimed invariance for every nonzero k fails. -/
theorem snr_scale_counterexample :
    ((-1 : ℚ) ≠ 0)
    ∧ signal_to_noise [(-1 : ℚ) * 1] [(-1 : ℚ) * 0, (-1 : ℚ) * 1] none
        ≠ signal_to_noise [(1 : ℚ)] [0, 1] none := by
  have hv1 : numpy_var [(-1 : ℚ) * 0, (-1 : ℚ) * 1] = 1/4 := by
    norm_num [numpy_var, numpy_mean]
  have hv2 : numpy_var [(0 : ℚ), 1] = 1/4 := by
    norm_num [numpy_var, numpy_mean]
  have hq : Real.sqrt (((1 : ℚ)/4 : ℚ) : ℝ) = 1/2 := by
    push_cast
    rw [show ((1 : ℝ)/4) = (1/2) ^ 2 by norm_num, Real.sqrt_sq (by norm_num : (0:ℝ) ≤ 1/2)]
  have hs1 : numpy_std [(-1 : ℚ) * 0, (-1 : ℚ) * 1] = 1/2 := by
    unfold numpy_std
    rw [hv1, hq]
  have hs2 : numpy_std [(0 : ℚ), 1] = 1/2 := by
    unfold numpy_std
    rw [hv2, hq]
  refine ⟨by norm_num, ?_⟩
  simp only [signal_to_noise, List.map_cons, List.map_nil, hs1, hs2]
  intro h
  rw [List.cons.injEq] at h
  have h1 := h.1
  push_cast at h1
  norm_num at h1

/-- C9 amended: on a constant (hence degenerate, sigma = 0) reference field
the significance scorer raises no error: the standard deviation is zero
and the scorer still returns one value per amplitude. -/
theorem snr_constant_field (peak_values map_values : List ℚ) (s : Option ℝ) (c : ℚ)
    (hne : map_values ≠ []) (hconst : ∀ x ∈ map_values, x = c) :
    numpy_std map_values = 0
    ∧ (signal_to_noise peak_values map_values s).length = peak_values.length := by
  have hlen : (map_values.length : ℚ) ≠ 0 := by
    have h : 0 < map_values.length := List.length_pos.mpr hne
    have h2 : map_values.length ≠ 0 := Nat.pos_iff_ne_zero.mp h
    exact_mod_cast h2
  have hmean : numpy_mean map_values = c := by
    unfold numpy_mean
    have hsum : map_values.sum = map_values.length • c := List.sum_eq_card_nsmul _ _ hconst
    rw [hsum, nsmul_eq_mul, mul_comm, mul_div_assoc, div_self hlen, mul_one]
  have hvar : numpy_var map_values = 0 := by
    unfold numpy_var
    rw [hmean]
    have hzero : (map_values.map (fun x => (x - c) ^ 2)).sum = 0 := by
      apply List.sum_eq_zero
      intro y hy
      obtain ⟨x, hx, rfl⟩ := List.mem_map.mp hy
      rw [hconst x hx]
      ring
    rw [hzero, zero_div]
  refine ⟨?_, by simp [signal_to_noise]⟩
  unfold numpy_std
  rw [hvar]
  push_cast
  exact Real.sqrt_zero

/-- Witness for snr_constant_field at amplitudes [1], field [5, 5, 5],
sigma argument some 2. -/
theorem snr_constant_field_witness :
    ([(5 : ℚ), 5, 5] ≠ []) ∧ (∀ x ∈ [(5 : ℚ), 5, 5], x = 5)
    ∧ (numpy_std [(5 : ℚ), 5, 5] = 0
        ∧ (signal_to_noise [(1 : ℚ)] [(5 : ℚ), 5, 5] (some 2)).length = [(1 : ℚ)].length) :=
  ⟨by simp, by simp,
    snr_constant_field [(1 : ℚ)] [(5 : ℚ), 5, 5] (some 2) 5 (by simp) (by simp)⟩

/-- C9 counterexample: on the constant reference field [5, 5, 5] the
standard deviation is zero, yet the scorer returns a result (of length 1
for one amplitude) instead of failing with an error. -/
theorem snr_degenerate_returns :
    numpy_std [(5 : ℚ), 5, 5] = 0
    ∧ (signal_to_noise [(1 : ℚ)] [5, 5, 5] none).length = 1 := by
  have hv : numpy_var [(5 : ℚ), 5, 5] = 0 := by
    norm_num [numpy_var, numpy_mean]
  refine ⟨?_, by simp [signal_to_noise]⟩
  unfold numpy_std
  rw [hv]
  push_cast
  exact Real.sqrt_zero

/-- Helper: the nearest-neighbour query fails exactly on an empty training
set. -/
theorem nearest_eq_none_iff (pts : List (ℚ × ℚ)) (q : ℚ × ℚ) :
    nearest pts q = none ↔ pts = [] := by
  cases pts with
  | nil => simp [nearest]
  | cons p rest =>
    rw [nearest]
    constructor
    · intro h
      split at h
      · exact absurd h (by simp)
      · split at h
        · exact absurd h (by simp)
        · exact absurd h (by simp)
    · intro h
      exact absurd h (by simp)

/-- Helper: a successful nearest-neighbour query returns a valid index
whose squared distance is attained and minimal over the training set. -/
theorem nearest_spec (q : ℚ × ℚ) (pts : List (ℚ × ℚ)) (i : ℕ) (d : ℚ)
    (h : nearest pts q = some (i, d)) :
    ∃ hi : i < pts.length,
      d = sqdist q (pts.get ⟨i, hi⟩)
      ∧ ∀ j, ∀ hj : j < pts.length, d ≤ sqdist q (pts.get ⟨j, hj⟩) := by
  induction pts generalizing i d with
  | nil => simp [nearest] at h
  | cons p rest ih =>
    rw [nearest] at h
    split at h
    · rename_i hr
      have hrest : rest = [] := (nearest_eq_none_iff rest q).mp hr
      subst hrest
      obtain ⟨h3, h4⟩ := Prod.mk.inj (Option.some.inj h)
      subst h3
      subst h4
      refine ⟨by simp, by simp, ?_⟩
      intro j hj
      have hj0 : j = 0 := by
        simp at hj
        omega
      subst hj0
      simp
    · rename_i i0 d0 hr
      obtain ⟨hi0, hd0, hmin⟩ := ih i0 d0 hr
      by_cases hle : sqdist q p ≤ d0
      · rw [if_pos hle] at h
        obtain ⟨h3, h4⟩ := Prod.mk.inj (Option.some.inj h)
        subst h3
        subst h4
        refine ⟨by simp, by simp, ?_⟩
        intro j hj
        cases j with
        | zero => simp
        | succ j2 =>
          have hj2 : j2 < rest.length := by simpa using hj
          have hm := hmin j2 hj2
          simpa using le_trans hle hm
      · rw [if_neg hle] at h
        obtain ⟨h3, h4⟩ := Prod.mk.inj (Option.some.inj h)
        subst h3
        subst h4
        refine ⟨by simpa using Nat.succ_lt_succ hi0, by simpa using hd0, ?_⟩
        intro j hj
        cases j with
        | zero => simpa using le_of_lt (lt_of_not_le hle)
        | succ j2 =>
          have hj2 : j2 < rest.length := by simpa using hj
          simpa using hmin j2 hj2

/-- Helper: on a non-empty peak list and a catalog of matching length the
matcher core returns the per-catalog-row index and squared-distance
arrays. -/
theorem find_nearest_sq_eq (p0 : ℚ × ℚ) (ptl : List (ℚ × ℚ)) (df2 : List (ℚ × ℚ))
    (hlen : df2.length = (p0 :: ptl).length) :
    find_nearest_sq (p0 :: ptl) df2
      = some ((df2.map (fun q => (nearest (p0 :: ptl) q).getD (0, 0))).map Prod.fst,
              (df2.map (fun q => (nearest (p0 :: ptl) q).getD (0, 0))).map Prod.snd) := by
  have hde : df2.isEmpty = false := by
    cases df2 with
    | nil => simp at hlen
    | cons a b => rfl
  unfold find_nearest_sq
  rw [hde]
  simp [hlen]

/-- C1 amended: find_nearest fits the neighbour structure on the peak
positions and queries it with the catalog rows, one result per catalog
record (not per peak): each returned index is a valid peak index whose
Euclidean distance to that catalog record is reported and is minimal over
all peaks; the column assignment only succeeds when the catalog has
exactly as many records as there are peaks, and an empty catalog fails in
the underlying library (none), with no dedicated EmptyCatalogError. -/
theorem find_nearest_matches (peaks df2 : List (ℚ × ℚ))
    (hp : peaks ≠ []) (hlen : df2.length = peaks.length) :
    ∃ idxs dists, find_nearest peaks df2 = some (idxs, dists)
      ∧ idxs.length = df2.length
      ∧ dists.length = df2.length
      ∧ (∀ j, ∀ hj : j < df2.length, ∀ hj1 : j < idxs.length, ∀ hj2 : j < dists.length,
          ∃ hi : idxs.get ⟨j, hj1⟩ < peaks.length,
            dists.get ⟨j, hj2⟩
              = Real.sqrt ((sqdist (df2.get ⟨j, hj⟩) (peaks.get ⟨idxs.get ⟨j, hj1⟩, hi⟩) : ℚ) : ℝ)
            ∧ ∀ i2, ∀ hi2 : i2 < peaks.length,
                dists.get ⟨j, hj2⟩
                  ≤ Real.sqrt ((sqdist (df2.get ⟨j, hj⟩) (peaks.get ⟨i2, hi2⟩) : ℚ) : ℝ))
      ∧ find_nearest peaks [] = none := by
  obtain ⟨p0, ptl, rfl⟩ : ∃ p0 ptl, peaks = p0 :: ptl := by
    cases peaks with
    | nil => exact absurd rfl hp
    | cons a b => exact ⟨a, b, rfl⟩
  have hsq := find_nearest_sq_eq p0 ptl df2 hlen
  refine ⟨(df2.map (fun q => (nearest (p0 :: ptl) q).getD (0, 0))).map Prod.fst,
    ((df2.map (fun q => (nearest (p0 :: ptl) q).getD (0, 0))).map Prod.snd).map
      (fun d : ℚ => Real.sqrt (d : ℝ)), ?_, by simp, by simp, ?_, by rfl⟩
  · unfold find_nearest
    rw [hsq]
    rfl
  · intro j hj hj1 hj2
    have hg1 : (((df2.map (fun q => (nearest (p0 :: ptl) q).getD (0, 0))).map Prod.fst).get
          ⟨j, hj1⟩)
        = ((nearest (p0 :: ptl) (df2.get ⟨j, hj⟩)).getD (0, 0)).1 := by
      simp [List.get_eq_getElem, List.getElem_map]
    have hg2 : ((((df2.map (fun q => (nearest (p0 :: ptl) q).getD (0, 0))).map Prod.snd).map
          (fun d : ℚ => Real.sqrt (d : ℝ))).get ⟨j, hj2⟩)
        = Real.sqrt ((((nearest (p0 :: ptl) (df2.get ⟨j, hj⟩)).getD (0, 0)).2 : ℝ)) := by
      simp [List.get_eq_getElem, List.getElem_map]
    cases hnq : nearest (p0 :: ptl) (df2.get ⟨j, hj⟩) with
    | none =>
      rw [nearest_eq_none_iff] at hnq
      simp at hnq
    | some pr =>
      obtain ⟨iq, dq⟩ := pr
      obtain ⟨hiq, hdq, hminq⟩ := nearest_spec _ _ _ _ hnq
      rw [hnq] at hg1 hg2
      simp only [Option.getD_some] at hg1 hg2
      simp only [hg1, hg2]
      refine ⟨hiq, ?_, ?_⟩
      · rw [hdq]
      · intro i2 hi2
        rw [hdq]
        have hle2 : sqdist (df2.get ⟨j, hj⟩) ((p0 :: ptl).get ⟨iq, hiq⟩)
            ≤ sqdist (df2.get ⟨j, hj⟩) ((p0 :: ptl).get ⟨i2, hi2⟩) := hdq ▸ hminq i2 hi2
        exact Real.sqrt_le_sqrt (by exact_mod_cast hle2)

/-- Witness for find_nearest_matches with one peak at (0, 0) and one
catalog record at (3, 4). -/
theorem find_nearest_matches_witness :
    ([((0 : ℚ), (0 : ℚ))] ≠ [])
    ∧ ([((3 : ℚ), (4 : ℚ))] : List (ℚ × ℚ)).length = ([((0 : ℚ), (0 : ℚ))] : List (ℚ × ℚ)).length
    ∧ (∃ idxs dists, find_nearest [((0 : ℚ), (0 : ℚ))] [((3 : ℚ), (4 : ℚ))] = some (idxs, dists)
        ∧ idxs.length = ([((3 : ℚ), (4 : ℚ))] : List (ℚ × ℚ)).length
        ∧ dists.length = ([((3 : ℚ), (4 : ℚ))] : List (ℚ × ℚ)).length
        ∧ (∀ j, ∀ hj : j < ([((3 : ℚ), (4 : ℚ))] : List (ℚ × ℚ)).length,
            ∀ hj1 : j < idxs.length, ∀ hj2 : j < dists.length,
            ∃ hi : idxs.get ⟨j, hj1⟩ < ([((0 : ℚ), (0 : ℚ))] : List (ℚ × ℚ)).length,
              dists.get ⟨j, hj2⟩
                = Real.sqrt ((sqdist (([((3 : ℚ), (4 : ℚ))] : List (ℚ × ℚ)).get ⟨j, hj⟩)
                    (([((0 : ℚ), (0 : ℚ))] : List (ℚ × ℚ)).get
                      ⟨idxs.get ⟨j, hj1⟩, hi⟩) : ℚ) : ℝ)
              ∧ ∀ i2, ∀ hi2 : i2 < ([((0 : ℚ), (0 : ℚ))] : List (ℚ × ℚ)).length,
                  dists.get ⟨j, hj2⟩
                    ≤ Real.sqrt ((sqdist (([((3 : ℚ), (4 : ℚ))] : List (ℚ × ℚ)).get ⟨j, hj⟩)
                        (([((0 : ℚ), (0 : ℚ))] : List (ℚ × ℚ)).get ⟨i2, hi2⟩) : ℚ) : ℝ))
        ∧ find_nearest [((0 : ℚ), (0 : ℚ))] [] = none) :=
  ⟨by simp, by simp,
    find_nearest_matches [((0 : ℚ), (0 : ℚ))] [((3 : ℚ), (4 : ℚ))] (by simp) (by simp)⟩

/-- C1 counterexample: with peaks at (0, 3) and (10, 3) and catalog records
at (1, 3) and (2, 3), the code stores the index column [0, 0] (the nearest
peak for each catalog record), while the per-peak nearest catalog record,
as claimed, would give [0, 1]. -/
theorem find_nearest_counterexample :
    (find_nearest [((0 : ℚ), (3 : ℚ)), (10, 3)] [((1 : ℚ), (3 : ℚ)), (2, 3)]).map
        (fun r => r.1) = some [0, 0]
    ∧ match_nearest_spec [((0 : ℚ), (3 : ℚ)), (10, 3)] [((1 : ℚ), (3 : ℚ)), (2, 3)]
        = some [0, 1]
    ∧ ([0, 0] : List ℕ) ≠ [0, 1] := by
  have h1 : nearest [((0 : ℚ), (3 : ℚ)), (10, 3)] ((1 : ℚ), (3 : ℚ)) = some (0, 1) := by
    norm_num [nearest, sqdist]
  have h2 : nearest [((0 : ℚ), (3 : ℚ)), (10, 3)] ((2 : ℚ), (3 : ℚ)) = some (0, 4) := by
    norm_num [nearest, sqdist]
  have h3 : nearest [((1 : ℚ), (3 : ℚ)), (2, 3)] ((0 : ℚ), (3 : ℚ)) = some (0, 1) := by
    norm_num [nearest, sqdist]
  have h4 : nearest [((1 : ℚ), (3 : ℚ)), (2, 3)] ((10 : ℚ), (3 : ℚ)) = some (1, 64) := by
    norm_num [nearest, sqdist]
  refine ⟨?_, ?_, by simp⟩
  · have hsq : find_nearest_sq [((0 : ℚ), (3 : ℚ)), (10, 3)] [((1 : ℚ), (3 : ℚ)), (2, 3)]
        = some ([0, 0], [1, 4]) := by
      unfold find_nearest_sq
      simp [h1, h2]
    unfold find_nearest
    rw [hsq]
    rfl
  · unfold match_nearest_spec
    simp [h3, h4]
